import Mathlib

/-!
Shallow embedding of the resumable batch-split pipeline of the mp4-splicing
repository: the segment-editor model of `src/components/VideoSplitter.vue`
and the batch task queue, checkpointing, prefetch and disposition logic of
`src/components/BatchSplit.vue`.  JavaScript numbers that only ever hold
integers are modelled as `Int` (indices that are always non-negative as
`Nat`); float-valued media fields (fps, duration, timestamp) are carried as
integers because no modelled operation computes on them — only their
presence or absence matters.  Task statuses are the literal strings used by
the code. External Tauri commands (`get_video_metadata`,
`extract_all_frames`, `delete_video_file`, `load_batch_progress`,
`save_batch_progress`) are modelled as explicit `Except`-valued inputs.
-/

namespace Mp4Splicing

/-- Metadata of a video, mirroring the `VideoMetadata` interface. -/
structure VideoMetadata where
  width : Nat
  height : Nat
  fps : Nat
  duration : Nat
  total_frames : Nat
  codec : String
deriving Repr, DecidableEq

/-- One extracted frame, mirroring the `FrameInfo` interface. -/
structure FrameInfo where
  frame_number : Int
  timestamp : Int
  image_path : String
deriving Repr, DecidableEq

/-- A confirmed segment, mirroring the `SegmentRange` interface. -/
structure SegmentRange where
  start_frame : Int
  end_frame : Int
deriving Repr, DecidableEq

/-- The in-progress (open) selection, mirroring the
`currentSelection` ref's value `{ start, end }` in `VideoSplitter.vue`. -/
structure CurrentSelection where
  start : Int
  «end» : Int
deriving Repr, DecidableEq

/-- The segment-editor state of `VideoSplitter.vue`: the confirmed
segment list and the optional open selection. -/
structure SplitterState where
  selectedSegments : List SegmentRange
  currentSelection : Option CurrentSelection
deriving Repr, DecidableEq

/-- The editor state when a task becomes active (`resetSegments`). -/
def initialSplitter : SplitterState :=
  { selectedSegments := [], currentSelection := none }

/-- `selectFrame(frameNumber)` from `VideoSplitter.vue`: with no open
selection, begin `{start: n, end: n}`; otherwise if `n < start` set
`start := n`, else set `end := n`. -/
def selectFrame (st : SplitterState) (frameNumber : Int) : SplitterState :=
  match st.currentSelection with
  | none =>
      { st with currentSelection := some ⟨frameNumber, frameNumber⟩ }
  | some sel =>
      if frameNumber < sel.start then
        { st with currentSelection := some { sel with start := frameNumber } }
      else
        { st with currentSelection := some { sel with «end» := frameNumber } }

/-- `addSegment()` from `VideoSplitter.vue`: no-op without an open
selection or when `start >= end`; otherwise push `[start, end]` onto
`selectedSegments` and clear the open selection. -/
def addSegment (st : SplitterState) : SplitterState :=
  match st.currentSelection with
  | none => st
  | some sel =>
      if sel.start ≥ sel.«end» then st
      else
        { st with
          selectedSegments := st.selectedSegments ++ [⟨sel.start, sel.«end»⟩],
          currentSelection := none }

/-- JavaScript `Array.prototype.splice(index, 1)`: a negative index counts
back from the end (clamped to 0), an index at or past the length deletes
nothing. Returns the list with one element removed at the actual start. -/
def spliceRemoveOne {α : Type} (l : List α) (index : Int) : List α :=
  let len : Int := l.length
  let actual : Nat := (if index < 0 then max (len + index) 0 else min index len).toNat
  l.take actual ++ l.drop (actual + 1)

/-- `removeSegment(index)` from `VideoSplitter.vue`:
`selectedSegments.splice(index, 1)`. -/
def removeSegment (st : SplitterState) (index : Int) : SplitterState :=
  { st with selectedSegments := spliceRemoveOne st.selectedSegments index }

/-- The segment-editor operations reachable from the component's template:
clicking a frame, confirming the open range, removing a confirmed range. -/
inductive SplitterOp where
  | select (n : Int)
  | confirm
  | remove (index : Int)
deriving Repr, DecidableEq

/-- Apply one editor operation. -/
def applyOp (st : SplitterState) : SplitterOp → SplitterState
  | .select n => selectFrame st n
  | .confirm => addSegment st
  | .remove i => removeSegment st i

/-- Run a sequence of editor operations from the initial (reset) state. -/
def runOps (ops : List SplitterOp) : SplitterState :=
  ops.foldl applyOp initialSplitter

/-- Two segments share a frame index. -/
def sharesFrame (a b : SegmentRange) : Prop :=
  ∃ n : Int, a.start_frame ≤ n ∧ n ≤ a.end_frame ∧
    b.start_frame ≤ n ∧ n ≤ b.end_frame

/-- The open selection covers frame `n`. -/
def selContains (sel : CurrentSelection) (n : Int) : Prop :=
  sel.start ≤ n ∧ n ≤ sel.«end»

instance (sel : CurrentSelection) (n : Int) : Decidable (selContains sel n) :=
  inferInstanceAs (Decidable (_ ∧ _))

/-- Every confirmed segment of the state is well-formed
(`start_frame < end_frame`). -/
def wfSegments (st : SplitterState) : Prop :=
  ∀ seg ∈ st.selectedSegments, seg.start_frame < seg.end_frame

/-! ## Batch pipeline (`BatchSplit.vue`) -/

/-- One batch task, mirroring the `VideoTask` interface.  `frames` and
`metadata` are the optional cached preparation results. -/
structure VideoTask where
  path : String
  name : String
  status : String
  frames : Option (List FrameInfo) := none
  metadata : Option VideoMetadata := none
deriving Repr, DecidableEq

/-- The persisted checkpoint document, mirroring `BatchProgress`. -/
structure BatchProgress where
  input_dir : String
  output_dir : String
  tasks : List VideoTask
  current_index : Nat
deriving Repr, DecidableEq

/-- The mutable queue state of `BatchSplit.vue`: the `batchTasks` ref and
the `currentTaskIndex` ref. -/
structure BatchState where
  batchTasks : List VideoTask
  currentTaskIndex : Nat
deriving Repr, DecidableEq

/-- Result of one external preparation (the `get_video_metadata` +
`extract_all_frames` invocations): both succeed or the pair fails. -/
abbrev PrepResult := Except String (VideoMetadata × List FrameInfo)

/-- A task's status counts as already decided for the forward scan of
`loadCurrentTask`: `"completed"` or `"skipped"`. -/
def isDecided (t : VideoTask) : Bool :=
  t.status == "completed" || t.status == "skipped"

/-- The body of `loadCurrentTask` once an undecided task is reached
(lines 370-398 of `BatchSplit.vue`): set status `"loading"`; if cached
`frames` and `metadata` are both present, reuse them and set `"ready"`;
otherwise run the external preparation — on success cache its results
and set `"ready"`, on failure set `error.value` and leave the status as
assigned (`"loading"`). Returns the updated task and the surfaced error. -/
def loadEligibleTask (task : VideoTask) (prep : PrepResult) :
    VideoTask × Option String :=
  let task := { task with status := "loading" }
  match task.frames, task.metadata with
  | some _, some _ => ({ task with status := "ready" }, none)
  | _, _ =>
      match prep with
      | .ok (md, fs) =>
          ({ task with frames := some fs, metadata := some md,
                       status := "ready" }, none)
      | .error e => (task, some e)

/-- Outcome of `loadCurrentTask`: either the batch is finished
(`isBatchMode := false`, tasks untouched) or a task at `idx` became the
active one, with the updated task list and the surfaced error, if any. -/
inductive LoadResult where
  | finished (tasks : List VideoTask)
  | loaded (tasks : List VideoTask) (idx : Nat) (err : Option String)
deriving Repr, DecidableEq

/-- `loadCurrentTask()` from `BatchSplit.vue`: if `currentTaskIndex` is
past the end, leave batch mode; if the current task is `"completed"` or
`"skipped"`, increment the index and recurse; otherwise load the task at
the current index.  `prep` supplies the external preparation result per
path. -/
def loadCurrentTask (prep : String → PrepResult) (tasks : List VideoTask)
    (i : Nat) : LoadResult :=
  if h : tasks.length ≤ i then .finished tasks
  else
    let task := tasks.get ⟨i, by omega⟩
    if isDecided task then
      loadCurrentTask prep tasks (i + 1)
    else
      let r := loadEligibleTask task (prep task.path)
      .loaded (tasks.set i r.1) i r.2
  termination_by tasks.length - i

/-- `preloadTask(task)` from `BatchSplit.vue`: set status `"loading"`,
run the external preparation; on success cache metadata and frames and
set `"ready"`; on failure log and set the status back to `"pending"`. -/
def preloadTask (task : VideoTask) (prep : PrepResult) : VideoTask :=
  let task := { task with status := "loading" }
  match prep with
  | .ok (md, fs) =>
      { task with metadata := some md, frames := some fs, status := "ready" }
  | .error _ => { task with status := "pending" }

/-- One iteration of the `preloadNextTasks` loop: at `idx`, if the index
is in bounds and the task there is `"pending"`, replace it by the result
of `preloadTask`. -/
def preloadStep (prep : String → PrepResult) (tasks : List VideoTask)
    (idx : Nat) : List VideoTask :=
  match tasks[idx]? with
  | some task =>
      if task.status == "pending" then
        tasks.set idx (preloadTask task (prep task.path))
      else tasks
  | none => tasks

/-- `preloadNextTasks()` from `BatchSplit.vue`: for `i = 1, 2`, preload
the task at `currentTaskIndex + i` when it exists and is `"pending"`. -/
def preloadNextTasks (prep : String → PrepResult) (tasks : List VideoTask)
    (current : Nat) : List VideoTask :=
  preloadStep prep (preloadStep prep tasks (current + 1)) (current + 2)

/-- `postponeCurrentVideo()` from `BatchSplit.vue` (queue part): set the
active task's status to `"later"`, splice it out of the list, and push a
copy with status `"pending"` at the tail; `currentTaskIndex` is not
changed.  Out of range, the source throws before mutating the list, so
the state is returned unchanged. -/
def postponeCurrentVideo (s : BatchState) : BatchState :=
  match s.batchTasks[s.currentTaskIndex]? with
  | none => s
  | some task =>
      let task := { task with status := "later" }
      let tasks := spliceRemoveOne (s.batchTasks.set s.currentTaskIndex task)
        s.currentTaskIndex
      { s with batchTasks := tasks ++ [{ task with status := "pending" }] }

/-- `deleteAndNext()` from `BatchSplit.vue`: invoke `delete_video_file`
on the active task's path; on success mark it `"completed"` and advance
the index (the subsequent `loadCurrentTask`/`preloadNextTasks` calls are
modelled separately); on failure the `catch` sets `error.value` and the
task's status and the index are left untouched.  Returns the new state
and the surfaced error. -/
def deleteAndNext (s : BatchState)
    (deleteResult : Except String Unit) : BatchState × Option String :=
  match s.batchTasks[s.currentTaskIndex]? with
  | none => (s, none)
  | some task =>
      match deleteResult with
      | .error e => (s, some e)
      | .ok _ =>
          ({ batchTasks := s.batchTasks.set s.currentTaskIndex
               { task with status := "completed" },
             currentTaskIndex := s.currentTaskIndex + 1 }, none)

/-- `loadBatchProgress()` from `BatchSplit.vue`: invoke
`load_batch_progress`; a thrown error is caught and ignored (state
unchanged); a `null` result leaves the state unchanged; a checkpoint
replaces `batchTasks` and `currentTaskIndex` wholesale. -/
def loadBatchProgress (s : BatchState)
    (result : Except String (Option BatchProgress)) : BatchState :=
  match result with
  | .error _ => s
  | .ok none => s
  | .ok (some progress) =>
      { batchTasks := progress.tasks,
        currentTaskIndex := progress.current_index }

/-- `saveBatchProgress()` from `BatchSplit.vue`: invoke
`save_batch_progress`; a thrown error is caught and logged via
`console.error`.  Returns the (unchanged) state and the logged message,
if any. -/
def saveBatchProgress (s : BatchState)
    (result : Except String Unit) : BatchState × Option String :=
  match result with
  | .error e => (s, some ("保存进度失败:" ++ e))
  | .ok _ => (s, none)

/-- `path.split("/").pop() || path` from `startBatchSplit`. -/
def deriveName (path : String) : String :=
  let last := (path.splitOn "/").getLastD path
  if last = "" then path else last

/-- The fresh task built for each listed file in `startBatchSplit`. -/
def freshTask (path : String) : VideoTask :=
  { path := path, name := deriveName path, status := "pending" }

/-- `startBatchSplit()` from `BatchSplit.vue` (through the checkpoint
load): with an empty listing, report an error and stay out of batch
mode (`none`); otherwise build all-`"pending"` tasks in listing order
with index 0 and then apply `loadBatchProgress` with the checkpoint
read result. -/
def startBatchSplit (files : List String)
    (checkpoint : Except String (Option BatchProgress)) : Option BatchState :=
  if files.isEmpty then none
  else some (loadBatchProgress
    { batchTasks := files.map freshTask, currentTaskIndex := 0 } checkpoint)

/-! ## Helper lemmas -/

theorem spliceRemoveOne_of_lt {α : Type} (l : List α) (i : Nat)
    (h : i < l.length) : spliceRemoveOne l (i : Int) = l.eraseIdx i := by
  simp only [spliceRemoveOne]
  have h0 : ¬((i : Int) < 0) := by omega
  rw [if_neg h0]
  have hmin : min (i : Int) (l.length : Int) = (i : Int) := by omega
  rw [hmin, Int.toNat_ofNat, List.eraseIdx_eq_take_drop_succ]

theorem spliceRemoveOne_of_ge {α : Type} (l : List α) (index : Int)
    (h : (l.length : Int) ≤ index) : spliceRemoveOne l index = l := by
  simp only [spliceRemoveOne]
  have h0 : ¬(index < 0) := by omega
  rw [if_neg h0]
  have hmin : min index (l.length : Int) = (l.length : Int) := by omega
  rw [hmin, Int.toNat_ofNat, List.take_length,
    List.drop_eq_nil_of_le (by omega), List.append_nil]

theorem spliceRemoveOne_neg {α : Type} (l : List α) (index : Int)
    (h : index < 0) :
    spliceRemoveOne l index = spliceRemoveOne l (max ((l.length : Int) + index) 0) := by
  simp only [spliceRemoveOne]
  have h0 : ¬(max ((l.length : Int) + index) 0 < 0) := by omega
  rw [if_pos h, if_neg h0]
  have hmin : min (max ((l.length : Int) + index) 0) (l.length : Int)
      = max ((l.length : Int) + index) 0 := by omega
  rw [hmin]

theorem spliceRemoveOne_subset {α : Type} (l : List α) (index : Int) :
    ∀ a ∈ spliceRemoveOne l index, a ∈ l := by
  intro a ha
  simp only [spliceRemoveOne, List.mem_append] at ha
  rcases ha with ha | ha
  · exact List.take_subset _ _ ha
  · exact List.drop_subset _ _ ha

theorem spliceRemoveOne_set {α : Type} (l : List α) (i : Nat) (a : α)
    (h : i < l.length) :
    spliceRemoveOne (l.set i a) (i : Int) = l.eraseIdx i := by
  rw [spliceRemoveOne_of_lt _ i (by simpa using h),
    List.eraseIdx_eq_take_drop_succ, List.eraseIdx_eq_take_drop_succ]
  congr 1
  · rw [List.set_take]
    exact List.set_eq_of_length_le (by simp)
  · rw [List.drop_set]
    simp

theorem preloadStep_getElem_ne (prep : String → PrepResult)
    (tasks : List VideoTask) (idx j : Nat) (hne : j ≠ idx) :
    (preloadStep prep tasks idx)[j]? = tasks[j]? := by
  rcases h : tasks[idx]? with _ | task
  · simp [preloadStep, h]
  · simp only [preloadStep, h]
    split
    · exact List.getElem?_set_ne (fun he => hne he.symm)
    · rfl

theorem preloadStep_getElem_self (prep : String → PrepResult)
    (tasks : List VideoTask) (idx : Nat) (t : VideoTask)
    (h : tasks[idx]? = some t) :
    (preloadStep prep tasks idx)[idx]?
      = if t.status == "pending" then some (preloadTask t (prep t.path))
        else some t := by
  have hlt : idx < tasks.length := (List.getElem?_eq_some_iff.mp h).1
  simp only [preloadStep, h]
  by_cases hp : (t.status == "pending") = true
  · rw [if_pos hp, if_pos hp, List.getElem?_set_self hlt]
  · rw [if_neg hp, if_neg hp]
    exact h

theorem applyOp_wf (st : SplitterState) (op : SplitterOp)
    (hwf : wfSegments st) : wfSegments (applyOp st op) := by
  cases op with
  | select n =>
      intro seg hseg
      apply hwf
      simpa [applyOp, selectFrame] using
        (by cases h : st.currentSelection <;>
              simp [applyOp, selectFrame, h] at hseg <;>
              first
                | exact hseg
                | (split at hseg <;> simpa using hseg) : seg ∈ st.selectedSegments)
  | confirm =>
      intro seg hseg
      cases h : st.currentSelection with
      | none =>
          simp [applyOp, addSegment, h] at hseg
          exact hwf seg hseg
      | some sel =>
          simp only [applyOp, addSegment, h] at hseg
          by_cases hge : sel.start ≥ sel.«end»
          · rw [if_pos hge] at hseg
            exact hwf seg hseg
          · rw [if_neg hge] at hseg
            simp only [List.mem_append, List.mem_singleton] at hseg
            rcases hseg with hseg | hseg
            · exact hwf seg hseg
            · subst hseg
              simpa using by omega
  | remove i =>
      intro seg hseg
      exact hwf seg (spliceRemoveOne_subset _ _ seg hseg)

theorem foldl_applyOp_wf (ops : List SplitterOp) (st : SplitterState)
    (hwf : wfSegments st) : wfSegments (ops.foldl applyOp st) := by
  induction ops generalizing st with
  | nil => exact hwf
  | cons op ops ih => exact ih _ (applyOp_wf st op hwf)

/-! ## Claims -/

/-- C1: `loadCurrentTask` scans forward from the current index skipping
every task whose status is `"completed"` or `"skipped"`; it finishes the
batch (leaving the task list untouched) exactly when every task from the
current index on is decided, and otherwise selects the first undecided
task as the new active task, loading it in place. -/
theorem loadCurrentTask_spec (prep : String → PrepResult)
    (tasks : List VideoTask) (start : Nat) :
    (∀ ts, loadCurrentTask prep tasks start = .finished ts → ts = tasks) ∧
    (loadCurrentTask prep tasks start = .finished tasks ↔
      ∀ j t, start ≤ j → tasks[j]? = some t → isDecided t = true) ∧
    (∀ ts i err, loadCurrentTask prep tasks start = .loaded ts i err →
      start ≤ i ∧ ∃ t, tasks[i]? = some t ∧ isDecided t = false ∧
        (∀ j, start ≤ j → j < i →
          ∃ u, tasks[j]? = some u ∧ isDecided u = true) ∧
        ts = tasks.set i (loadEligibleTask t (prep t.path)).1 ∧
        err = (loadEligibleTask t (prep t.path)).2) := by
  refine loadCurrentTask.induct prep tasks (fun st =>
    (∀ ts, loadCurrentTask prep tasks st = .finished ts → ts = tasks) ∧
    (loadCurrentTask prep tasks st = .finished tasks ↔
      ∀ j t, st ≤ j → tasks[j]? = some t → isDecided t = true) ∧
    (∀ ts i err, loadCurrentTask prep tasks st = .loaded ts i err →
      st ≤ i ∧ ∃ t, tasks[i]? = some t ∧ isDecided t = false ∧
        (∀ j, st ≤ j → j < i →
          ∃ u, tasks[j]? = some u ∧ isDecided u = true) ∧
        ts = tasks.set i (loadEligibleTask t (prep t.path)).1 ∧
        err = (loadEligibleTask t (prep t.path)).2)) ?_ ?_ ?_ start
  · intro st hlen
    have heq : loadCurrentTask prep tasks st = .finished tasks := by
      rw [loadCurrentTask]
      simp [hlen]
    refine ⟨?_, ?_, ?_⟩
    · intro ts hts
      rw [heq] at hts
      exact (LoadResult.finished.inj hts).symm
    · refine iff_of_true heq ?_
      intro j t hj hjt
      rw [List.getElem?_eq_none (by omega)] at hjt
      cases hjt
    · intro ts i err hts
      rw [heq] at hts
      exact LoadResult.noConfusion hts
  · intro st h task hzl ih
    have hlt2 : st < tasks.length := by omega
    have hz : isDecided tasks[st] = true := hzl
    have heq : loadCurrentTask prep tasks st
        = loadCurrentTask prep tasks (st + 1) := by
      conv_lhs => rw [loadCurrentTask]
      simp [h, hz]
    have hget : tasks[st]? = some tasks[st] :=
      List.getElem?_eq_getElem hlt2
    obtain ⟨ih1, ih2, ih3⟩ := ih
    refine ⟨?_, ?_, ?_⟩
    · intro ts hts
      exact ih1 ts (heq ▸ hts)
    · rw [heq, ih2]
      constructor
      · intro hall j t hj hjt
        rcases Nat.eq_or_lt_of_le hj with heqj | hlt
        · subst heqj
          rw [hget] at hjt
          cases hjt
          exact hz
        · exact hall j t (by omega) hjt
      · intro hall j t hj hjt
        exact hall j t (by omega) hjt
    · intro ts i err hts
      obtain ⟨hle, t, htt, hdec, hskip, hts', herr⟩ := ih3 ts i err (heq ▸ hts)
      refine ⟨by omega, t, htt, hdec, ?_, hts', herr⟩
      intro j hj hji
      rcases Nat.eq_or_lt_of_le hj with heqj | hlt
      · subst heqj
        exact ⟨tasks[st], hget, hz⟩
      · exact hskip j (by omega) hji
  · intro st h task hzl
    have hlt2 : st < tasks.length := by omega
    have hz : ¬ isDecided tasks[st] = true := hzl
    have hget : tasks[st]? = some tasks[st] :=
      List.getElem?_eq_getElem hlt2
    have heq : loadCurrentTask prep tasks st
        = .loaded (tasks.set st (loadEligibleTask tasks[st]
            (prep tasks[st].path)).1) st
            ((loadEligibleTask tasks[st] (prep tasks[st].path)).2) := by
      conv_lhs => rw [loadCurrentTask]
      simp [h, hz]
    refine ⟨?_, ?_, ?_⟩
    · intro ts hts
      rw [heq] at hts
      exact LoadResult.noConfusion hts
    · refine iff_of_false ?_ ?_
      · rw [heq]
        intro hcon
        exact LoadResult.noConfusion hcon
      · intro hall
        exact hz (hall st tasks[st] (le_refl st) hget)
    · intro ts i err hts
      rw [heq, LoadResult.loaded.injEq] at hts
      obtain ⟨hts1, hts2, hts3⟩ := hts
      subst hts2
      refine ⟨le_refl _, tasks[st], hget, by simpa using hz,
        ?_, hts1.symm, hts3.symm⟩
      intro j hj hji
      exact absurd hji (by omega)

/-- C3 (counterexample): the operation sequence select 3, select 5,
confirm, select 1, select 7, confirm — every click on a frame the UI
still displays — produces the confirmed segments `[3,5]` and `[1,7]`,
which share frame 3: `addSegment` performs no intersection check, so an
API path does produce overlapping confirmed ranges. -/
theorem addSegment_overlap_reachable :
    (runOps [.select 3, .select 5, .confirm, .select 1, .select 7,
      .confirm]).selectedSegments = [⟨3, 5⟩, ⟨1, 7⟩] ∧
    sharesFrame ⟨3, 5⟩ ⟨1, 7⟩ :=
  ⟨by decide, ⟨3, by decide⟩⟩

/-- C3 (amended): after any sequence of `selectFrame`, `addSegment` and
`removeSegment` operations from the reset state, every confirmed segment
is well-formed (`start_frame < end_frame`); pairwise non-overlap is NOT
an invariant — `addSegment` validates only `start < end`, never
intersection with existing segments, so overlapping confirmed ranges are
reachable. -/
theorem runOps_segments_wellformed (ops : List SplitterOp) :
    ∀ seg ∈ (runOps ops).selectedSegments, seg.start_frame < seg.end_frame := by
  have : wfSegments (runOps ops) := by
    apply foldl_applyOp_wf
    intro seg hseg
    simp [initialSplitter] at hseg
  exact this

/-- C3 (witness for the amended theorem). -/
theorem runOps_segments_wellformed_witness :
    (⟨1, 4⟩ : SegmentRange) ∈
      (runOps [.select 1, .select 4, .confirm]).selectedSegments ∧
    (1 : Int) < 4 :=
  ⟨by decide, runOps_segments_wellformed [.select 1, .select 4, .confirm]
    ⟨1, 4⟩ (by decide)⟩

/-- C4 (counterexample): with the open range `[5, 10]`, `selectFrame 7`
takes the `else` branch (`7 < 5` is false) and sets `end := 7`, shrinking
the range to `[5, 7]`: frame 10 was in the old range but is not in the
new one, refuting "never shrinks / the resulting range contains the old
range". -/
theorem selectFrame_shrinks :
    (selectFrame { selectedSegments := [], currentSelection := some ⟨5, 10⟩ } 7)
      = { selectedSegments := [], currentSelection := some ⟨5, 7⟩ } ∧
    selContains ⟨5, 10⟩ 10 ∧ ¬ selContains ⟨5, 7⟩ 10 :=
  ⟨by decide, by decide, by decide⟩

/-- C4 (amended): with no open selection, `selectFrame n` begins the
single-point range `[n, n]`; with an open range `[s, e]` (`s ≤ e`, as all
reachable open ranges satisfy), if `n < s` the range becomes `[n, e]`,
otherwise it becomes `[s, n]`; the result always contains `n` and its
start never moves up, but it can shrink (frames above `n` are dropped
when `s ≤ n < e`); the confirmed list is untouched. -/
theorem selectFrame_spec (st : SplitterState) (n : Int) :
    (st.currentSelection = none →
      (selectFrame st n).currentSelection = some ⟨n, n⟩) ∧
    (∀ sel, st.currentSelection = some sel → sel.start ≤ sel.«end» →
      ∃ sel', (selectFrame st n).currentSelection = some sel' ∧
        selContains sel' n ∧ sel'.start ≤ sel.start ∧
        (n < sel.start → sel' = ⟨n, sel.«end»⟩) ∧
        (sel.start ≤ n → sel' = ⟨sel.start, n⟩)) ∧
    (selectFrame st n).selectedSegments = st.selectedSegments := by
  refine ⟨fun h => by simp [selectFrame, h], fun sel h hle => ?_, ?_⟩
  · by_cases hlt : n < sel.start
    · refine ⟨⟨n, sel.«end»⟩, by simp [selectFrame, h, if_pos hlt], ?_, ?_,
        fun _ => rfl, fun hge => absurd hlt (by omega)⟩
      · show n ≤ n ∧ n ≤ sel.«end»
        omega
      · show n ≤ sel.start
        omega
    · refine ⟨⟨sel.start, n⟩, by simp [selectFrame, h, if_neg hlt], ?_, ?_,
        fun hlt' => absurd hlt' hlt, fun _ => rfl⟩
      · show sel.start ≤ n ∧ n ≤ n
        omega
      · show sel.start ≤ sel.start
        omega
  · cases h : st.currentSelection with
    | none => simp [selectFrame, h]
    | some sel =>
        simp only [selectFrame, h]
        split <;> rfl

/-- C9 (counterexample): `removeSegment (-1)` on a one-element confirmed
list removes that element — JavaScript `splice` interprets a negative
index from the end of the array — although `-1` is outside the bounds of
the list, refuting "every index outside the bounds is a no-op". -/
theorem removeSegment_negative_mutates :
    (removeSegment { selectedSegments := [⟨1, 3⟩], currentSelection := none }
      (-1)).selectedSegments = [] ∧
    ([] : List SegmentRange) ≠ [⟨1, 3⟩] :=
  ⟨by decide, by decide⟩

/-- C9 (amended): `addSegment` with an open range whose `start ≥ end`
(including `start = end`) leaves the whole state unchanged, and
`removeSegment index` with `index ≥ length` is a no-op; a negative index,
however, follows `splice` semantics and addresses `max (length + index) 0`
from the front, so it can remove an element. -/
theorem invalidInput_noMutation (st : SplitterState) :
    (∀ sel, st.currentSelection = some sel → sel.start ≥ sel.«end» →
      addSegment st = st) ∧
    (∀ index : Int, (st.selectedSegments.length : Int) ≤ index →
      removeSegment st index = st) ∧
    (∀ index : Int, index < 0 →
      removeSegment st index
        = removeSegment st (max ((st.selectedSegments.length : Int) + index) 0)) := by
  refine ⟨fun sel h hge => by simp [addSegment, h, if_pos hge],
    fun index hidx => ?_, fun index hneg => ?_⟩
  · simp [removeSegment, spliceRemoveOne_of_ge _ _ hidx]
  · simp [removeSegment, spliceRemoveOne_neg _ _ hneg]

/-- C9 (witness): the amended theorem applied to the state with confirmed
list `[[1,3]]` and open range `[4,4]`. -/
theorem invalidInput_noMutation_witness :
    addSegment { selectedSegments := [⟨1, 3⟩], currentSelection := some ⟨4, 4⟩ }
      = { selectedSegments := [⟨1, 3⟩], currentSelection := some ⟨4, 4⟩ } ∧
    removeSegment { selectedSegments := [⟨1, 3⟩], currentSelection := some ⟨4, 4⟩ } 5
      = { selectedSegments := [⟨1, 3⟩], currentSelection := some ⟨4, 4⟩ } ∧
    removeSegment { selectedSegments := [⟨1, 3⟩], currentSelection := some ⟨4, 4⟩ } (-2)
      = removeSegment { selectedSegments := [⟨1, 3⟩], currentSelection := some ⟨4, 4⟩ }
          (max ((1 : Int) + (-2)) 0) :=
  ⟨(invalidInput_noMutation _).1 ⟨4, 4⟩ rfl (by decide),
   (invalidInput_noMutation _).2.1 5 (by decide),
   (invalidInput_noMutation _).2.2 (-2) (by decide)⟩

/-- C1 (witness): scanning `[completed, pending]` from index 0 with a
failing preparation selects index 1, the first undecided task. -/
theorem loadCurrentTask_spec_witness :
    (0 : Nat) ≤ 1 ∧ isDecided ⟨"b", "b", "pending", none, none⟩ = false := by
  have h := (loadCurrentTask_spec (fun _ => .error "boom")
    [⟨"a", "a", "completed", none, none⟩, ⟨"b", "b", "pending", none, none⟩]
    0).2.2
    [⟨"a", "a", "completed", none, none⟩, ⟨"b", "b", "loading", none, none⟩]
    1 (some "boom")
    (by simp [loadCurrentTask, isDecided, loadEligibleTask])
  obtain ⟨h1, t, ht, hdec, -, -, -⟩ := h
  refine ⟨h1, ?_⟩
  simp only [List.getElem?_cons_succ, List.getElem?_cons_zero,
    Option.some.injEq] at ht
  rw [← ht] at hdec
  exact hdec

/-- C6 (counterexample): when preparation fails while a task is being
loaded as the active task, `loadCurrentTask` leaves its status as
`"loading"` (the `catch` only sets `error.value`), not `"pending"` as the
claim states for both failure paths. -/
theorem activeLoadFailure_leaves_loading :
    loadCurrentTask (fun _ => .error "fail")
      [⟨"a", "a", "pending", none, none⟩] 0
      = .loaded [⟨"a", "a", "loading", none, none⟩] 0 (some "fail") ∧
    "loading" ≠ "pending" := by
  constructor
  · simp [loadCurrentTask, isDecided, loadEligibleTask]
  · decide

/-- C6 (amended): a prefetch failure resets the task to `"pending"`; a
failure while loading the active task instead leaves it `"loading"` with
the error surfaced — but in both cases preparation is retried when the
task next becomes active, because the reload is keyed on the absence of
cached frames/metadata, not on the status, and `"loading"` is not
skipped by the forward scan. -/
theorem preparationFailure_recovery (task : VideoTask) (e : String)
    (md : VideoMetadata) (fs : List FrameInfo)
    (hfr : task.frames = none) :
    (preloadTask task (.error e)).status = "pending" ∧
    loadEligibleTask task (.error e)
      = ({ task with status := "loading" }, some e) ∧
    isDecided { task with status := "loading" } = false ∧
    loadEligibleTask { task with status := "loading" } (.ok (md, fs))
      = ({ task with
            status := "ready"
            frames := some fs
            metadata := some md }, none) := by
  refine ⟨rfl, ?_, ?_, ?_⟩
  · simp [loadEligibleTask, hfr]
  · simp [isDecided]
  · simp [loadEligibleTask, hfr]

/-- C6 (witness): the amended theorem at a bare pending task. -/
theorem preparationFailure_recovery_witness :
    (preloadTask ⟨"a", "a", "pending", none, none⟩ (.error "x")).status
      = "pending" ∧
    loadEligibleTask ⟨"a", "a", "pending", none, none⟩ (.error "x")
      = (⟨"a", "a", "loading", none, none⟩, some "x") ∧
    isDecided ⟨"a", "a", "loading", none, none⟩ = false ∧
    loadEligibleTask ⟨"a", "a", "loading", none, none⟩
        (.ok (⟨1, 1, 1, 1, 1, "h264"⟩, []))
      = (⟨"a", "a", "ready", some [], some ⟨1, 1, 1, 1, 1, "h264"⟩⟩, none) :=
  preparationFailure_recovery ⟨"a", "a", "pending", none, none⟩ "x"
    ⟨1, 1, 1, 1, 1, "h264"⟩ [] rfl

/-- C5 (counterexample): when `delete_video_file` fails, `deleteAndNext`
reaches the `catch` before the status assignment: the task stays
`"ready"` (a non-terminal status, not `"completed"`), the index does not
advance, and only the error is surfaced — refuting "the task's status
still ends as Completed". -/
theorem deleteAndNext_failure_not_completed :
    deleteAndNext
      { batchTasks := [⟨"a", "a", "ready", none, none⟩], currentTaskIndex := 0 }
      (.error "io")
      = ({ batchTasks := [⟨"a", "a", "ready", none, none⟩],
            currentTaskIndex := 0 }, some "io") ∧
    "ready" ≠ "completed" := by
  constructor
  · rfl
  · decide

/-- C5 (amended): in `deleteAndNext`, when the external deletion fails
the error is surfaced and the state is left entirely unchanged (the task
is NOT marked `"completed"`, the index does not advance); only on
successful deletion is the active task marked `"completed"` and the
index advanced. -/
theorem deleteAndNext_spec (s : BatchState) (t : VideoTask)
    (h : s.batchTasks[s.currentTaskIndex]? = some t) :
    (∀ e, deleteAndNext s (.error e) = (s, some e)) ∧
    deleteAndNext s (.ok ())
      = ({ batchTasks := s.batchTasks.set s.currentTaskIndex
             { t with status := "completed" },
           currentTaskIndex := s.currentTaskIndex + 1 }, none) := by
  unfold deleteAndNext
  rw [h]
  exact ⟨fun e => rfl, rfl⟩

/-- C5 (witness): the amended theorem on a singleton batch. -/
theorem deleteAndNext_spec_witness :
    deleteAndNext
      { batchTasks := [⟨"a", "a", "ready", none, none⟩], currentTaskIndex := 0 }
      (.error "io")
      = ({ batchTasks := [⟨"a", "a", "ready", none, none⟩],
            currentTaskIndex := 0 }, some "io") ∧
    deleteAndNext
      { batchTasks := [⟨"a", "a", "ready", none, none⟩], currentTaskIndex := 0 }
      (.ok ())
      = ({ batchTasks := [⟨"a", "a", "completed", none, none⟩],
            currentTaskIndex := 1 }, none) := by
  have h := deleteAndNext_spec
    { batchTasks := [⟨"a", "a", "ready", none, none⟩], currentTaskIndex := 0 }
    ⟨"a", "a", "ready", none, none⟩ rfl
  exact ⟨h.1 "io", by rw [h.2]; rfl⟩

/-- C2: for every state whose `currentTaskIndex` is in range,
`postponeCurrentVideo` leaves `currentTaskIndex` unchanged, removes the
active task from its position and appends a copy with status
`"pending"` at the tail; the postponed copy is the last element, the
list length is preserved, and every task originally after the active
one ends up at a strictly smaller position than the postponed copy —
so the next forward scan reaches all of them before it. -/
theorem postponeCurrentVideo_spec (s : BatchState) (t : VideoTask)
    (h : s.batchTasks[s.currentTaskIndex]? = some t) :
    (postponeCurrentVideo s).currentTaskIndex = s.currentTaskIndex ∧
    (postponeCurrentVideo s).batchTasks
      = s.batchTasks.eraseIdx s.currentTaskIndex
          ++ [{ t with status := "pending" }] ∧
    (postponeCurrentVideo s).batchTasks.getLast?
      = some { t with status := "pending" } ∧
    (postponeCurrentVideo s).batchTasks.length = s.batchTasks.length ∧
    ∀ j, s.currentTaskIndex < j → j < s.batchTasks.length →
      (postponeCurrentVideo s).batchTasks[j - 1]? = s.batchTasks[j]? ∧
      j - 1 < (postponeCurrentVideo s).batchTasks.length - 1 := by
  have hlt : s.currentTaskIndex < s.batchTasks.length :=
    (List.getElem?_eq_some_iff.mp h).1
  have key : postponeCurrentVideo s
      = { s with batchTasks := s.batchTasks.eraseIdx s.currentTaskIndex
            ++ [{ t with status := "pending" }] } := by
    unfold postponeCurrentVideo
    rw [h]
    dsimp only
    rw [spliceRemoveOne_set _ _ _ hlt]
  have hlen : (postponeCurrentVideo s).batchTasks.length = s.batchTasks.length := by
    rw [key]
    simp [List.length_eraseIdx_of_lt hlt]
    omega
  refine ⟨by rw [key], by rw [key], ?_, hlen, fun j hij hjlen => ⟨?_, ?_⟩⟩
  · rw [key]
    exact List.getLast?_concat _
  · rw [key]
    dsimp only
    rw [List.getElem?_append_left
        (by rw [List.length_eraseIdx_of_lt hlt]; omega),
      List.getElem?_eraseIdx, if_neg (by omega)]
    congr 1
    omega
  · rw [hlen]
    omega

/-- C2 (witness): postponing the first of three tasks. -/
theorem postponeCurrentVideo_spec_witness :
    (postponeCurrentVideo
        { batchTasks := [⟨"a", "a", "ready", none, none⟩,
            ⟨"b", "b", "pending", none, none⟩,
            ⟨"c", "c", "pending", none, none⟩],
          currentTaskIndex := 0 }).batchTasks
      = [⟨"b", "b", "pending", none, none⟩, ⟨"c", "c", "pending", none, none⟩,
          ⟨"a", "a", "pending", none, none⟩] ∧
    (postponeCurrentVideo
        { batchTasks := [⟨"a", "a", "ready", none, none⟩,
            ⟨"b", "b", "pending", none, none⟩,
            ⟨"c", "c", "pending", none, none⟩],
          currentTaskIndex := 0 }).currentTaskIndex = 0 ∧
    (1 : Nat) - 1 < 3 - 1 := by
  have h := postponeCurrentVideo_spec
    { batchTasks := [⟨"a", "a", "ready", none, none⟩,
        ⟨"b", "b", "pending", none, none⟩,
        ⟨"c", "c", "pending", none, none⟩],
      currentTaskIndex := 0 }
    ⟨"a", "a", "ready", none, none⟩ rfl
  refine ⟨by rw [h.2.1]; rfl, h.1, ?_⟩
  have h5 := (h.2.2.2.2 1 (by decide) (by decide)).2
  rw [h.2.2.2.1] at h5
  exact h5

/-- C7: checkpoint failures are never fatal — a failed or absent
checkpoint read leaves the batch state (the fresh listing) unchanged, a
read error behaves exactly like an absent checkpoint, and a checkpoint
write never changes the state whether it succeeds or fails (a failure is
only logged). -/
theorem checkpointFailure_nonfatal (s : BatchState) (e : String)
    (r : Except String Unit) :
    loadBatchProgress s (.error e) = s ∧
    loadBatchProgress s (.ok none) = s ∧
    loadBatchProgress s (.error e) = loadBatchProgress s (.ok none) ∧
    (saveBatchProgress s r).1 = s := by
  refine ⟨rfl, rfl, rfl, ?_⟩
  cases r <;> rfl

/-- C8 (counterexample): `preloadNextTasks` checks only
`status === "pending"`, never whether preparation data is cached: a
pending task at `activeIndex + 1` that already carries cached frames and
metadata is prefetched anyway (its cache is overwritten and it becomes
`"ready"`), refuting "exactly the tasks ... with no cached preparation
data". -/
theorem preload_touches_cached_pending :
    preloadNextTasks
        (fun _ => .ok (⟨2, 2, 2, 2, 2, "h264"⟩, [⟨1, 1, "p"⟩]))
        [⟨"x", "x", "ready", none, none⟩,
          ⟨"b", "b", "pending", some [], some ⟨1, 1, 1, 1, 1, "c"⟩⟩] 0
      = [⟨"x", "x", "ready", none, none⟩,
          ⟨"b", "b", "ready", some [⟨1, 1, "p"⟩], some ⟨2, 2, 2, 2, 2, "h264"⟩⟩] ∧
    (⟨"b", "b", "ready", some [⟨1, 1, "p"⟩], some ⟨2, 2, 2, 2, 2, "h264"⟩⟩
        : VideoTask)
      ≠ ⟨"b", "b", "pending", some [], some ⟨1, 1, 1, 1, 1, "c"⟩⟩ := by
  constructor
  · decide
  · decide

/-- C8 (amended): `preloadNextTasks` touches exactly the indices
`activeIndex + 1` and `activeIndex + 2`: any existing task there whose
status is `"pending"` — regardless of whether preparation data is
cached — is replaced by `preloadTask`'s result, which is
`Pending → Ready` with the cache (over)written on success and back to
`"pending"` on failure; tasks at other indices or with other statuses
are untouched. -/
theorem preloadNextTasks_spec (prep : String → PrepResult)
    (tasks : List VideoTask) (current : Nat) :
    (∀ j, j ≠ current + 1 → j ≠ current + 2 →
      (preloadNextTasks prep tasks current)[j]? = tasks[j]?) ∧
    (∀ j t, (j = current + 1 ∨ j = current + 2) → tasks[j]? = some t →
      (¬ t.status = "pending" →
        (preloadNextTasks prep tasks current)[j]? = some t) ∧
      (t.status = "pending" →
        (preloadNextTasks prep tasks current)[j]?
          = some (preloadTask t (prep t.path)))) ∧
    (∀ t md fs, preloadTask t (.ok (md, fs))
      = { t with status := "ready", metadata := some md, frames := some fs }) ∧
    (∀ t e, preloadTask t (.error e) = { t with status := "pending" }) := by
  refine ⟨fun j h1 h2 => ?_, fun j t hj ht => ?_, fun t md fs => rfl,
    fun t e => rfl⟩
  · unfold preloadNextTasks
    rw [preloadStep_getElem_ne _ _ _ _ h2, preloadStep_getElem_ne _ _ _ _ h1]
  · rcases hj with rfl | rfl
    · have hmid : (preloadNextTasks prep tasks current)[current + 1]?
          = (preloadStep prep tasks (current + 1))[current + 1]? := by
        unfold preloadNextTasks
        exact preloadStep_getElem_ne _ _ _ _ (by omega)
      rw [hmid, preloadStep_getElem_self _ _ _ _ ht]
      constructor
      · intro hns
        rw [if_neg (by simpa using hns)]
      · intro hs
        rw [if_pos (by simpa using hs)]
    · have hmid : (preloadStep prep tasks (current + 1))[current + 2]?
          = some t := by
        rw [preloadStep_getElem_ne _ _ _ _ (by omega)]
        exact ht
      have : (preloadNextTasks prep tasks current)[current + 2]?
          = if t.status == "pending" then some (preloadTask t (prep t.path))
            else some t := by
        unfold preloadNextTasks
        exact preloadStep_getElem_self _ _ _ _ hmid
      rw [this]
      constructor
      · intro hns
        rw [if_neg (by simpa using hns)]
      · intro hs
        rw [if_pos (by simpa using hs)]

/-- C8 (witness): the amended theorem on a three-task batch with the
window at indices 1 and 2. -/
theorem preloadNextTasks_spec_witness :
    (preloadNextTasks (fun _ => .error "e")
        [⟨"a", "a", "ready", none, none⟩, ⟨"b", "b", "skipped", none, none⟩,
          ⟨"c", "c", "pending", none, none⟩] 0)[1]?
      = some ⟨"b", "b", "skipped", none, none⟩ ∧
    (preloadNextTasks (fun _ => .error "e")
        [⟨"a", "a", "ready", none, none⟩, ⟨"b", "b", "skipped", none, none⟩,
          ⟨"c", "c", "pending", none, none⟩] 0)[2]?
      = some (preloadTask ⟨"c", "c", "pending", none, none⟩ (.error "e")) ∧
    (preloadNextTasks (fun _ => .error "e")
        [⟨"a", "a", "ready", none, none⟩, ⟨"b", "b", "skipped", none, none⟩,
          ⟨"c", "c", "pending", none, none⟩] 0)[0]?
      = some ⟨"a", "a", "ready", none, none⟩ := by
  have h := preloadNextTasks_spec (fun _ => .error "e")
    [⟨"a", "a", "ready", none, none⟩, ⟨"b", "b", "skipped", none, none⟩,
      ⟨"c", "c", "pending", none, none⟩] 0
  exact ⟨(h.2.1 1 ⟨"b", "b", "skipped", none, none⟩ (Or.inl rfl) rfl).1
      (by decide),
    (h.2.1 2 ⟨"c", "c", "pending", none, none⟩ (Or.inr rfl) rfl).2 rfl,
    h.1 0 (by decide) (by decide)⟩

/-- C10: when a checkpoint exists, `startBatchSplit` (whose
`loadBatchProgress` ran after building the fresh listing) replaces the
fresh all-pending task list and index 0 wholesale with the checkpoint's
`tasks` and `current_index`; hence a file in the input listing whose path
is not among the checkpoint's task paths never appears as a task of the
resumed batch. -/
theorem startBatchSplit_resume (files : List String) (p : BatchProgress)
    (h : files ≠ []) :
    startBatchSplit files (.ok (some p))
      = some { batchTasks := p.tasks, currentTaskIndex := p.current_index } ∧
    ∀ f, (∀ t ∈ p.tasks, t.path ≠ f) →
      ∀ s, startBatchSplit files (.ok (some p)) = some s →
        ∀ t ∈ s.batchTasks, t.path ≠ f := by
  have h1 : startBatchSplit files (.ok (some p))
      = some { batchTasks := p.tasks, currentTaskIndex := p.current_index } := by
    unfold startBatchSplit
    rw [if_neg (by simpa [List.isEmpty_iff] using h)]
    rfl
  refine ⟨h1, fun f hf s hs t ht => ?_⟩
  rw [h1] at hs
  cases hs
  exact hf t ht

/-- C10 (witness): resuming from a checkpoint whose only task is `"b"`
while the directory listing contains only `"a.mp4"`. -/
theorem startBatchSplit_resume_witness :
    startBatchSplit ["a.mp4"]
        (.ok (some ⟨"in", "out", [⟨"b", "b", "pending", none, none⟩], 0⟩))
      = some { batchTasks := [⟨"b", "b", "pending", none, none⟩],
               currentTaskIndex := 0 } ∧
    ("b" : String) ≠ "a.mp4" := by
  have h := startBatchSplit_resume ["a.mp4"]
    ⟨"in", "out", [⟨"b", "b", "pending", none, none⟩], 0⟩ (by decide)
  exact ⟨h.1, h.2 "a.mp4" (by decide) _ h.1
    ⟨"b", "b", "pending", none, none⟩ (by decide)⟩

/-- C4 (witness): applying the amended theorem at the open range
`[5, 10]` and `n = 7`. -/
theorem selectFrame_spec_witness :
    (selectFrame { selectedSegments := [], currentSelection := some ⟨5, 10⟩ }
        7).currentSelection = some ⟨5, 7⟩ ∧
    selContains ⟨5, 7⟩ 7 := by
  obtain ⟨sel', h1, h2, h3, h4, h5⟩ :=
    (selectFrame_spec
      { selectedSegments := [], currentSelection := some ⟨5, 10⟩ } 7).2.1
      ⟨5, 10⟩ rfl (by decide)
  have hv := h5 (by decide)
  subst hv
  exact ⟨h1, h2⟩

end Mp4Splicing
